import Mathlib

/-!
Verification of the MultiVehicleSearch packing core (`findListings.py`).

The Python module is shallowly embedded below.  Python integers are modelled
as `Int` (with `Int.fdiv` for Python's floor division `//`), Python sets of
listing identifiers as `Finset String`, the success/`None` distinction of
`vehicle_order_fit_slot` as `Option`, and the set of combinations returned by
`vehicles_fit_listings` as `Finset (Finset String)`.  Loops are written as
structural recursions whose state is exactly the state mutated by the Python
loops.
-/

namespace MultiVehicleSearch

/-- A listing record as stored per location by `load_locations`:
`{"id": ..., "length": ..., "width": ..., "price_in_cents": ...}`. -/
structure Listing where
  id : String
  length : Int
  width : Int
  price_in_cents : Int
deriving DecidableEq, Repr

/-- One item of the vehicle query: `{"length": ..., "quantity": ...}`. -/
structure QueryItem where
  length : Int
  quantity : Int
deriving DecidableEq, Repr

/-- Embeds `parse_vehicle_query`: each query item contributes
`quantity` repeats of its `length` (Python `range(q)` is empty for `q ≤ 0`,
hence `Int.toNat`). -/
def parse_vehicle_query (vehicle_query : List QueryItem) : List Int :=
  vehicle_query.flatMap (fun item => List.replicate item.quantity.toNat item.length)

/-- The two orientation tags iterated by `vehicles_fit_listings`
(`for orientation in ["width", "length"]`). -/
inductive Orientation where
  | width
  | length
deriving DecidableEq, Repr

/-- Embeds the slot generation inlined in `vehicles_fit_listings` for one
listing: orientation `"width"` yields `width // 10` slots `(id, length)`,
orientation `"length"` yields `length // 10` slots `(id, width)`
(`[x] * n` is empty for `n ≤ 0`, hence `Int.toNat`). -/
def listing_slots (orientation : Orientation) (listing : Listing) : List (String × Int) :=
  match orientation with
  | .width => List.replicate (listing.width.fdiv 10).toNat (listing.id, listing.length)
  | .length => List.replicate (listing.length.fdiv 10).toNat (listing.id, listing.width)

/-- Embeds the `location_slots` accumulation loop of `vehicles_fit_listings`:
the slot lists of all listings, concatenated in listing order. -/
def build_slots (orientation : Orientation) (listings : List Listing) : List (String × Int) :=
  listings.flatMap (listing_slots orientation)

/-- Embeds the inner `for i, slot in enumerate(location_slots)` loop of
`vehicle_order_fit_slot` for a single vehicle: find the first slot whose
remaining capacity admits the vehicle, decrement it in place, and return the
updated slot list together with the owning listing id; `none` when no slot
admits the vehicle (`updated` stays `False`). -/
def fit_one (vehicle_len : Int) : List (String × Int) → Option (List (String × Int) × String)
  | [] => none
  | slot :: rest =>
    if vehicle_len ≤ slot.2 then
      some ((slot.1, slot.2 - vehicle_len) :: rest, slot.1)
    else
      match fit_one vehicle_len rest with
      | none => none
      | some (rest2, used) => some (slot :: rest2, used)

/-- Embeds the outer `for vehicle_len in vehicle_order` loop of
`vehicle_order_fit_slot`; the state is the mutated `location_slots` list and
the `listings_used` set. -/
def fit_loop : List Int → List (String × Int) → Finset String → Option (Finset String)
  | [], _, used => some used
  | v :: vs, slots, used =>
    match fit_one v slots with
    | none => none
    | some (slots2, id) => fit_loop vs slots2 (insert id used)

/-- Embeds `vehicle_order_fit_slot`: starts from an empty `listings_used`
set; returns the used set on success and `none` (Python `return` with no
value) when some vehicle cannot be placed. -/
def vehicle_order_fit_slot (vehicle_order : List Int) (location_slots : List (String × Int)) :
    Option (Finset String) :=
  fit_loop vehicle_order location_slots ∅

/-- The slot-list state of the `vehicle_order_fit_slot` loop: same recursion
as `fit_loop`, projected onto the `location_slots` component it mutates. -/
def run_slots : List Int → List (String × Int) → Option (List (String × Int))
  | [], slots => some slots
  | v :: vs, slots =>
    match fit_one v slots with
    | none => none
    | some (slots2, _) => run_slots vs slots2

/-- Embeds the `for vehicle_order in vehicle_orderings` loop of
`vehicles_fit_listings` for one orientation's slot list: each attempt runs
`vehicle_order_fit_slot` on `location_slots.copy()`, so every attempt
receives the same freshly built slot list; Python's `if listings_used:` is
false both for `None` and for the empty set. -/
def attempts (location_slots : List (String × Int)) :
    List (List Int) → Finset (Finset String) → Finset (Finset String)
  | [], acc => acc
  | o :: os, acc =>
    match vehicle_order_fit_slot o location_slots with
    | none => attempts location_slots os acc
    | some used => attempts location_slots os (if used = ∅ then acc else insert used acc)

/-- Embeds `vehicles_fit_listings`: the `"width"` orientation is processed
first, then `"length"`, both accumulating into the same
`listings_combinations` set.  Note the Python function records only
`frozenset(listings_used)` — no price is attached. -/
def vehicles_fit_listings (listings : List Listing) (vehicle_orderings : List (List Int)) :
    Finset (Finset String) :=
  attempts (build_slots .length listings) vehicle_orderings
    (attempts (build_slots .width listings) vehicle_orderings ∅)

/-- A result entry of the interface `findListings` is documented and tested
to produce: `{location_id, listing_ids, total_price_in_cents}`. -/
structure ResultEntry where
  location_id : String
  listing_ids : List String
  total_price_in_cents : Int
deriving DecidableEq, Repr

set_option linter.unusedVariables false in
/-- Embeds `findListings`: the Python function loads the locations (file
I/O, modelled here as the `locations` parameter, which the repository's tests
inject by patching `load_locations`) and then its entire remaining body is
commented-out pseudocode, so it falls off the end and returns `None` for
every input. -/
def findListings (locations : List (String × List Listing))
    (vehicle_query : List QueryItem) : Option (List ResultEntry) :=
  none

lemma fdiv_ten_toNat_eq_zero : ∀ {w : Int}, w < 10 → (w.fdiv 10).toNat = 0 := by
  intro w h
  match w with
  | .ofNat 0 => rfl
  | .ofNat (m + 1) =>
    have hm : m + 1 < 10 := Int.ofNat_lt.mp h
    show (Int.ofNat ((m + 1) / 10)).toNat = 0
    rw [Nat.div_eq_of_lt hm]
    rfl
  | .negSucc m => rfl

/-- C4: under orientation `by-width` the slot generator produces exactly
`width // 10` slots, each of capacity `length`; under `by-length` exactly
`length // 10` slots, each of capacity `width`; a listing narrower than 10
in the active axis contributes zero slots. -/
theorem listing_slots_spec (l : Listing) :
    ((listing_slots .width l).length = (l.width.fdiv 10).toNat
      ∧ ∀ s ∈ listing_slots .width l, s = (l.id, l.length))
    ∧ ((listing_slots .length l).length = (l.length.fdiv 10).toNat
      ∧ ∀ s ∈ listing_slots .length l, s = (l.id, l.width))
    ∧ (l.width < 10 → listing_slots .width l = [])
    ∧ (l.length < 10 → listing_slots .length l = []) := by
  refine ⟨⟨List.length_replicate _ _, ?_⟩, ⟨List.length_replicate _ _, ?_⟩, ?_, ?_⟩
  · intro s hs
    exact (List.eq_of_mem_replicate hs)
  · intro s hs
    exact (List.eq_of_mem_replicate hs)
  · intro h
    simp [listing_slots, fdiv_ten_toNat_eq_zero h]
  · intro h
    simp [listing_slots, fdiv_ten_toNat_eq_zero h]

/-- Witness for `listing_slots_spec` at the listing `{id A, length 40, width 5}`. -/
theorem listing_slots_spec_witness :
    ((5 : Int) < 10 ∧ listing_slots .width ⟨"A", 40, 5, 1000⟩ = []) ∧
      (listing_slots .length ⟨"A", 40, 5, 1000⟩).length = ((40 : Int).fdiv 10).toNat :=
  ⟨⟨by decide, (listing_slots_spec ⟨"A", 40, 5, 1000⟩).2.2.1 (by decide)⟩,
    (listing_slots_spec ⟨"A", 40, 5, 1000⟩).2.1.1⟩

lemma fit_one_eq_none (v : Int) :
    ∀ slots : List (String × Int), (∀ p ∈ slots, p.2 < v) → fit_one v slots = none := by
  intro slots hall
  induction slots with
  | nil => rfl
  | cons s rest ih =>
    have hs : s.2 < v := hall s (List.mem_cons_self s rest)
    have hrest : fit_one v rest = none := by
      refine ih ?_
      intro p hp
      exact hall p (List.mem_cons_of_mem s hp)
    simp [fit_one, not_le.mpr hs, hrest]

lemma fit_one_first_fit (v : Int) :
    ∀ (pre post : List (String × Int)) (s : String × Int),
      (∀ p ∈ pre, p.2 < v) → v ≤ s.2 →
      fit_one v (pre ++ s :: post) = some (pre ++ (s.1, s.2 - v) :: post, s.1) := by
  intro pre
  induction pre with
  | nil =>
    intro post s _ hs
    simp [fit_one, hs]
  | cons q qre ih =>
    intro post s hpre hs
    have hq : q.2 < v := hpre q (List.mem_cons_self q qre)
    have hrest := ih post s (fun p hp => hpre p (List.mem_cons_of_mem q hp)) hs
    simp [fit_one, not_le.mpr hq, hrest]

/-- C5: the checker succeeds with the empty used-set on the empty vehicle
list, and fails immediately (whatever the remaining vehicles) when some
vehicle exceeds every slot capacity; on success the used listings form a set
(`Finset`), so identifiers are distinct. -/
theorem vehicle_order_fit_slot_edge (slots : List (String × Int)) (v : Int) (vs : List Int) :
    vehicle_order_fit_slot [] slots = some ∅
    ∧ ((∀ p ∈ slots, p.2 < v) → vehicle_order_fit_slot (v :: vs) slots = none) := by
  constructor
  · rfl
  · intro hall
    simp [vehicle_order_fit_slot, fit_loop, fit_one_eq_none v slots hall]

/-- Witness for `vehicle_order_fit_slot_edge`: slots `[(A, 5)]`, vehicle 10. -/
theorem vehicle_order_fit_slot_edge_witness :
    vehicle_order_fit_slot [] [("A", 5)] = some ∅
    ∧ vehicle_order_fit_slot [10, 7] [("A", 5)] = none :=
  ⟨(vehicle_order_fit_slot_edge [("A", 5)] 10 [7]).1,
    (vehicle_order_fit_slot_edge [("A", 5)] 10 [7]).2 (by decide)⟩

/-- C3: the checker is first-fit in the given orders.  The loop state is
`fit_loop` (with `vehicle_order_fit_slot` starting it from the empty used
set); placing a vehicle into the first slot that admits it decrements that
slot and records its listing, and when no slot admits the vehicle the whole
attempt fails at once, whatever vehicles remain. -/
theorem vehicle_order_fit_slot_first_fit (v : Int) (vs : List Int) (used : Finset String) :
    (∀ slots : List (String × Int), vehicle_order_fit_slot vs slots = fit_loop vs slots ∅)
    ∧ (∀ (pre post : List (String × Int)) (s : String × Int),
        (∀ p ∈ pre, p.2 < v) → v ≤ s.2 →
        fit_loop (v :: vs) (pre ++ s :: post) used
          = fit_loop vs (pre ++ (s.1, s.2 - v) :: post) (insert s.1 used))
    ∧ (∀ slots : List (String × Int), (∀ p ∈ slots, p.2 < v) →
        fit_loop (v :: vs) slots used = none) := by
  refine ⟨fun _ => rfl, ?_, ?_⟩
  · intro pre post s hpre hs
    simp [fit_loop, fit_one_first_fit v pre post s hpre hs]
  · intro slots hall
    simp [fit_loop, fit_one_eq_none v slots hall]

/-- Witness for `vehicle_order_fit_slot_first_fit`: vehicle 10 skips the
slot of capacity 5 and is placed in the slot `(B, 20)`. -/
theorem vehicle_order_fit_slot_first_fit_witness :
    fit_loop [10] [("A", 5), ("B", 20)] ∅ = fit_loop [] [("A", 5), ("B", 10)] (insert "B" ∅) := by
  have h := (vehicle_order_fit_slot_first_fit 10 [] ∅).2.1 [("A", 5)] [] ("B", 20)
    (by decide) (by decide)
  simpa using h

set_option linter.unusedVariables false in
lemma fit_one_nonneg (v : Int) (hv : 0 ≤ v) :
    ∀ (slots slots2 : List (String × Int)) (id : String),
      (∀ p ∈ slots, 0 ≤ p.2) → fit_one v slots = some (slots2, id) →
      ∀ p ∈ slots2, 0 ≤ p.2 := by
  intro slots
  induction slots with
  | nil =>
    intro slots2 id _ hfit
    simp [fit_one] at hfit
  | cons s rest ih =>
    intro slots2 id hall hfit
    by_cases hvs : v ≤ s.2
    · simp [fit_one, hvs] at hfit
      intro p hp
      rw [← hfit.1] at hp
      rcases List.mem_cons.mp hp with hp | hp
      · rw [hp]
        exact sub_nonneg.mpr hvs
      · exact hall p (List.mem_cons_of_mem s hp)
    · cases hrest : fit_one v rest with
      | none => simp [fit_one, hvs, hrest] at hfit
      | some pr =>
        obtain ⟨rest2, u⟩ := pr
        simp [fit_one, hvs, hrest] at hfit
        intro p hp
        rw [← hfit.1] at hp
        rcases List.mem_cons.mp hp with hp | hp
        · rw [hp]
          exact hall s (List.mem_cons_self s rest)
        · exact ih rest2 u (fun q hq => hall q (List.mem_cons_of_mem s hq)) hrest p hp

lemma run_slots_nonneg (vs : List Int) :
    ∀ slots : List (String × Int), (∀ p ∈ slots, 0 ≤ p.2) → (∀ v ∈ vs, 0 ≤ v) →
      ∀ final, run_slots vs slots = some final → ∀ p ∈ final, 0 ≤ p.2 := by
  induction vs with
  | nil =>
    intro slots hall _ final hrun
    simp [run_slots] at hrun
    rw [← hrun]
    exact hall
  | cons v vs ih =>
    intro slots hall hv final hrun
    cases hfit : fit_one v slots with
    | none => simp [run_slots, hfit] at hrun
    | some pr =>
      obtain ⟨s2, id⟩ := pr
      have h2 : ∀ p ∈ s2, 0 ≤ p.2 :=
        fit_one_nonneg v (hv v (List.mem_cons_self v vs)) slots s2 id hall hfit
      simp [run_slots, hfit] at hrun
      exact ih s2 h2 (fun u hu => hv u (List.mem_cons_of_mem v hu)) final hrun

lemma fit_loop_isSome_iff (vs : List Int) :
    ∀ (slots : List (String × Int)) (used : Finset String),
      (fit_loop vs slots used).isSome = (run_slots vs slots).isSome := by
  induction vs with
  | nil => intro slots used; rfl
  | cons v vs ih =>
    intro slots used
    cases hfit : fit_one v slots with
    | none => simp [fit_loop, run_slots, hfit]
    | some pr =>
      obtain ⟨s2, id⟩ := pr
      simp [fit_loop, run_slots, hfit, ih]

/-- C7: packing preserves non-negativity of every slot capacity — after a
single placement step (`fit_one`) and at the end of the whole run
(`run_slots`, the slot-list state of the `vehicle_order_fit_slot` loop,
which succeeds exactly when `vehicle_order_fit_slot` does) — because a
vehicle is only placed into a slot whose remaining capacity admits it. -/
theorem slot_capacities_nonneg (vs : List Int) :
    (∀ (v : Int) (slots slots2 : List (String × Int)) (id : String),
        (∀ p ∈ slots, 0 ≤ p.2) → 0 ≤ v → fit_one v slots = some (slots2, id) →
        ∀ p ∈ slots2, 0 ≤ p.2)
    ∧ (∀ slots : List (String × Int), (∀ p ∈ slots, 0 ≤ p.2) → (∀ v ∈ vs, 0 ≤ v) →
        ∀ final, run_slots vs slots = some final → ∀ p ∈ final, 0 ≤ p.2)
    ∧ (∀ slots : List (String × Int),
        (vehicle_order_fit_slot vs slots).isSome = (run_slots vs slots).isSome) :=
  ⟨fun v slots slots2 id hall hv hfit => fit_one_nonneg v hv slots slots2 id hall hfit,
    run_slots_nonneg vs,
    fun slots => fit_loop_isSome_iff vs slots ∅⟩

/-- Witness for `slot_capacities_nonneg`: packing vehicle 10 into the slot
`(A, 15)` leaves the non-negative capacity 5. -/
theorem slot_capacities_nonneg_witness :
    run_slots [10] [("A", 15)] = some [("A", 5)] ∧ (0 : Int) ≤ ("A", (5 : Int)).2 :=
  ⟨by decide,
    (slot_capacities_nonneg [10]).2.1 [("A", 15)] (by decide) (by decide) [("A", 5)]
      (by decide) ("A", 5) (by decide)⟩

lemma mem_attempts (location_slots : List (String × Int)) :
    ∀ (os : List (List Int)) (acc : Finset (Finset String)) (S : Finset String),
      S ∈ attempts location_slots os acc
        ↔ S ∈ acc
          ∨ (S ≠ ∅ ∧ ∃ o ∈ os, vehicle_order_fit_slot o location_slots = some S) := by
  intro os
  induction os with
  | nil =>
    intro acc S
    simp [attempts]
  | cons o os ih =>
    intro acc S
    cases hfit : vehicle_order_fit_slot o location_slots with
    | none =>
      rw [show attempts location_slots (o :: os) acc = attempts location_slots os acc from by
        simp [attempts, hfit]]
      rw [ih]
      constructor
      · rintro (h | ⟨hne, o2, ho2, hf⟩)
        · exact Or.inl h
        · exact Or.inr ⟨hne, o2, List.mem_cons_of_mem o ho2, hf⟩
      · rintro (h | ⟨hne, o2, ho2, hf⟩)
        · exact Or.inl h
        · rcases List.mem_cons.mp ho2 with rfl | ho2
          · rw [hfit] at hf
            exact absurd hf (by simp)
          · exact Or.inr ⟨hne, o2, ho2, hf⟩
    | some used =>
      by_cases hempty : used = ∅
      · rw [show attempts location_slots (o :: os) acc = attempts location_slots os acc from by
          simp [attempts, hfit, hempty]]
        rw [ih]
        constructor
        · rintro (h | ⟨hne, o2, ho2, hf⟩)
          · exact Or.inl h
          · exact Or.inr ⟨hne, o2, List.mem_cons_of_mem o ho2, hf⟩
        · rintro (h | ⟨hne, o2, ho2, hf⟩)
          · exact Or.inl h
          · rcases List.mem_cons.mp ho2 with rfl | ho2
            · rw [hfit, hempty] at hf
              exact absurd (Option.some.inj hf) (fun h2 => hne h2.symm)
            · exact Or.inr ⟨hne, o2, ho2, hf⟩
      · rw [show attempts location_slots (o :: os) acc
              = attempts location_slots os (insert used acc) from by
          simp [attempts, hfit, hempty]]
        rw [ih]
        constructor
        · rintro (h | ⟨hne, o2, ho2, hf⟩)
          · rcases Finset.mem_insert.mp h with rfl | h
            · exact Or.inr ⟨hempty, o, List.mem_cons_self o os, hfit⟩
            · exact Or.inl h
          · exact Or.inr ⟨hne, o2, List.mem_cons_of_mem o ho2, hf⟩
        · rintro (h | ⟨hne, o2, ho2, hf⟩)
          · exact Or.inl (Finset.mem_insert_of_mem h)
          · rcases List.mem_cons.mp ho2 with rfl | ho2
            · rw [hfit] at hf
              rw [Option.some.inj hf]
              exact Or.inl (Finset.mem_insert_self S acc)
            · exact Or.inr ⟨hne, o2, ho2, hf⟩

lemma mem_vehicles_fit_listings (listings : List Listing)
    (orderings : List (List Int)) (S : Finset String) :
    S ∈ vehicles_fit_listings listings orderings
      ↔ S ≠ ∅ ∧ ∃ o ∈ orderings,
          (vehicle_order_fit_slot o (build_slots .width listings) = some S
            ∨ vehicle_order_fit_slot o (build_slots .length listings) = some S) := by
  unfold vehicles_fit_listings
  rw [mem_attempts, mem_attempts]
  simp only [Finset.not_mem_empty, false_or]
  constructor
  · rintro (⟨hne, o, ho, hf⟩ | ⟨hne, o, ho, hf⟩)
    · exact ⟨hne, o, ho, Or.inl hf⟩
    · exact ⟨hne, o, ho, Or.inr hf⟩
  · rintro ⟨hne, o, ho, hf | hf⟩
    · exact Or.inl ⟨hne, o, ho, hf⟩
    · exact Or.inr ⟨hne, o, ho, hf⟩

/-- C8: every packing attempt inside `vehicles_fit_listings` runs on the
freshly built slot list of its orientation (the Python code passes
`location_slots.copy()`), so a combination is recorded exactly when some
supplied ordering succeeds on that pristine slot list — each attempt's
verdict is independent of any other attempt's capacity decrements. -/
theorem vehicles_fit_listings_fresh_slots (listings : List Listing)
    (orderings : List (List Int)) (S : Finset String) :
    S ∈ vehicles_fit_listings listings orderings
      ↔ S ≠ ∅ ∧ ∃ o ∈ orderings,
          (vehicle_order_fit_slot o (build_slots .width listings) = some S
            ∨ vehicle_order_fit_slot o (build_slots .length listings) = some S) :=
  mem_vehicles_fit_listings listings orderings S

/-- Witness for `vehicles_fit_listings_fresh_slots`: with two orderings, the
verdict of the second is computed on the fresh slot list, not on the list
the first attempt consumed. -/
theorem vehicles_fit_listings_fresh_slots_witness :
    ({"A"} : Finset String) ∈ vehicles_fit_listings [⟨"A", 40, 20, 1000⟩] [[40, 40], [40]] :=
  (vehicles_fit_listings_fresh_slots [⟨"A", 40, 20, 1000⟩] [[40, 40], [40]] {"A"}).mpr
    ⟨by decide, [40], by decide, Or.inl (by decide)⟩

lemma fit_one_ids (v : Int) :
    ∀ (slots slots2 : List (String × Int)) (id : String),
      fit_one v slots = some (slots2, id) →
      id ∈ slots.map Prod.fst ∧ slots2.map Prod.fst = slots.map Prod.fst := by
  intro slots
  induction slots with
  | nil =>
    intro slots2 id hfit
    simp [fit_one] at hfit
  | cons s rest ih =>
    intro slots2 id hfit
    by_cases hvs : v ≤ s.2
    · simp [fit_one, hvs] at hfit
      refine ⟨by simp [hfit.2], ?_⟩
      rw [← hfit.1]
      simp
    · cases hrest : fit_one v rest with
      | none => simp [fit_one, hvs, hrest] at hfit
      | some pr =>
        obtain ⟨rest2, u⟩ := pr
        simp [fit_one, hvs, hrest] at hfit
        obtain ⟨hmem, hids⟩ := ih rest2 u hrest
        refine ⟨by simp [hfit.2 ▸ hmem], ?_⟩
        rw [← hfit.1]
        simp [hids]

lemma fit_loop_ids (vs : List Int) :
    ∀ (slots : List (String × Int)) (used : Finset String) (r : Finset String),
      fit_loop vs slots used = some r →
      ∀ x ∈ r, x ∈ used ∨ x ∈ slots.map Prod.fst := by
  induction vs with
  | nil =>
    intro slots used r hrun x hx
    simp [fit_loop] at hrun
    rw [hrun]
    exact Or.inl hx
  | cons v vs ih =>
    intro slots used r hrun x hx
    cases hfit : fit_one v slots with
    | none => simp [fit_loop, hfit] at hrun
    | some pr =>
      obtain ⟨s2, id⟩ := pr
      simp [fit_loop, hfit] at hrun
      obtain ⟨hmem, hids⟩ := fit_one_ids v slots s2 id hfit
      rcases ih s2 (insert id used) r hrun x hx with hx2 | hx2
      · rcases Finset.mem_insert.mp hx2 with rfl | hx2
        · exact Or.inr hmem
        · exact Or.inl hx2
      · exact Or.inr (hids ▸ hx2)

lemma build_slots_ids (orientation : Orientation) (listings : List Listing) :
    ∀ x ∈ (build_slots orientation listings).map Prod.fst, ∃ l ∈ listings, l.id = x := by
  intro x hx
  rcases List.mem_map.mp hx with ⟨p, hp, hpx⟩
  rcases List.mem_flatMap.mp hp with ⟨l, hl, hpl⟩
  refine ⟨l, hl, ?_⟩
  cases orientation with
  | width =>
    rw [← hpx, (List.eq_of_mem_replicate hpl :)]
  | length =>
    rw [← hpx, (List.eq_of_mem_replicate hpl :)]

/-- C9: identifier provenance — every listing identifier appearing in a
combination returned by `vehicles_fit_listings` is the id of some listing of
its input list, because an id is only recorded when a vehicle is placed into
a slot generated from that listing. -/
theorem vehicles_fit_listings_provenance (listings : List Listing)
    (orderings : List (List Int)) (S : Finset String)
    (hS : S ∈ vehicles_fit_listings listings orderings) :
    ∀ id ∈ S, ∃ l ∈ listings, l.id = id := by
  intro id hid
  rcases (mem_vehicles_fit_listings listings orderings S).mp hS with ⟨-, o, -, hf | hf⟩
  · rcases fit_loop_ids o (build_slots .width listings) ∅ S hf id hid with h | h
    · exact absurd h (Finset.not_mem_empty id)
    · exact build_slots_ids .width listings id h
  · rcases fit_loop_ids o (build_slots .length listings) ∅ S hf id hid with h | h
    · exact absurd h (Finset.not_mem_empty id)
    · exact build_slots_ids .length listings id h

/-- Witness for `vehicles_fit_listings_provenance` on one listing `A` and
the ordering `[10]`. -/
theorem vehicles_fit_listings_provenance_witness :
    ∃ l ∈ [(⟨"A", 40, 20, 1000⟩ : Listing)], l.id = "A" :=
  vehicles_fit_listings_provenance [⟨"A", 40, 20, 1000⟩] [[10]] {"A"} (by decide) "A" (by decide)

/-- C10: the empty identifier set is never recorded as a feasible
combination (the Python guard `if listings_used:` rejects the empty set),
and in particular when every supplied ordering is the empty list the result
of `vehicles_fit_listings` is the empty set. -/
theorem vehicles_fit_listings_empty_orderings (listings : List Listing)
    (orderings : List (List Int)) :
    ∅ ∉ vehicles_fit_listings listings orderings
    ∧ ((∀ o ∈ orderings, o = []) → vehicles_fit_listings listings orderings = ∅) := by
  constructor
  · intro h
    rcases (mem_vehicles_fit_listings listings orderings ∅).mp h with ⟨hne, -⟩
    exact hne rfl
  · intro hall
    refine Finset.eq_empty_iff_forall_not_mem.mpr ?_
    intro S hS
    rcases (mem_vehicles_fit_listings listings orderings S).mp hS with ⟨hne, o, ho, hf | hf⟩
    · rw [hall o ho] at hf
      exact hne (Option.some.inj hf).symm
    · rw [hall o ho] at hf
      exact hne (Option.some.inj hf).symm

/-- Witness for `vehicles_fit_listings_empty_orderings` at one listing and
the single empty ordering. -/
theorem vehicles_fit_listings_empty_orderings_witness :
    ∅ ∉ vehicles_fit_listings [(⟨"A", 40, 20, 1000⟩ : Listing)] [([] : List Int)]
    ∧ vehicles_fit_listings [(⟨"A", 40, 20, 1000⟩ : Listing)] [([] : List Int)] = ∅ :=
  ⟨(vehicles_fit_listings_empty_orderings [⟨"A", 40, 20, 1000⟩] [[]]).1,
    (vehicles_fit_listings_empty_orderings [⟨"A", 40, 20, 1000⟩] [[]]).2 (by decide)⟩

/-- C1: `findListings` on the spec's end-to-end scenario 1 — one location
with the single listing `{id A, length 40, width 20, price 1000}` and
vehicles `[10, 20]`.  The embedded function returns `none` (Python `None`),
not the result list the claim and the repository's own tests state. -/
theorem findListings_scenario_one :
    findListings [("loc1", [⟨"A", 40, 20, 1000⟩])] [⟨10, 1⟩, ⟨20, 1⟩] = none := rfl

/-- C2: `vehicles_fit_listings` evaluated at the repository's own test
inputs.  It records bare identifier sets reached by first-fit over the whole
location's slot list: no total price is attached and no other feasible
subset (such as `{B}` or `{A, B}` in the second input, where each listing
alone can host the vehicle) is enumerated, contradicting the claimed
(identifier-set, total-price) pairs per feasible non-empty subset. -/
theorem vehicles_fit_listings_drops_prices_and_subsets :
    vehicles_fit_listings [⟨"A", 40, 20, 10000⟩] [[10, 10, 20]]
        = ({({"A"} : Finset String)} : Finset (Finset String))
    ∧ vehicles_fit_listings [⟨"A", 20, 20, 100⟩, ⟨"B", 20, 20, 200⟩] [[10]]
        = ({({"A"} : Finset String)} : Finset (Finset String)) := by
  constructor
  · decide
  · decide

/-- C6: `parse_vehicle_query` expands each query item into `quantity`
repeats of its length (so the flattened multiset is empty when the query is
empty or all quantities are zero), but `findListings` returns `none`
(Python `None`) on the empty query, not the empty result list the claim and
the repository's tests state. -/
theorem findListings_empty_query :
    parse_vehicle_query [] = []
    ∧ parse_vehicle_query [⟨10, 0⟩, ⟨20, 0⟩] = []
    ∧ parse_vehicle_query [⟨10, 1⟩, ⟨20, 2⟩, ⟨25, 1⟩] = [10, 20, 20, 25]
    ∧ (parse_vehicle_query [⟨10, 1⟩, ⟨20, 2⟩, ⟨25, 1⟩]).length = (1 + 2 + 1 : Int).toNat
    ∧ findListings [("loc1", [⟨"A", 20, 20, 1000⟩])] [] = none := by
  refine ⟨rfl, by decide, by decide, by decide, rfl⟩

end MultiVehicleSearch
